import Mathlib

/-!
Verification of the token-resolution and platform-formatting logic of the
hierarchical design-token build script (`build-themes.js`).

The JavaScript source is shallowly embedded as executable Lean definitions:

* `resolveReference` models `resolveReference(value, flatTokens, seen)`
  (lines 136-157): a global regex replace of every reference group
  matching the pattern of an opening brace, one or more non-closing-brace
  characters, and a closing brace.  Each group is looked up in the flat
  token map; a path already in `seen` produces a `console.warn` (modelled
  as the second, log component of the result) and is left unresolved; a
  missing path is left unresolved silently; a found path recurses with
  `seen` extended.  Token values are modelled as strings (every token
  value exercised by the build's reference resolution is a string).
  A JS `Set` is modelled as a `List String` with `contains`.
* `toCSSSyntax` models `toCSSSyntax(value, flatTokens)` (lines 164-178).
* `hexToAndroidColor` / `hexToUIColor` model the colour converters
  (lines 234-258 and 263-292); JS numbers are modelled exactly by `JSNum`,
  an unnormalised fraction with a separate NaN value (all numbers produced
  by these functions are decimal fractions, and no `toFixed` call in the
  colour pipeline sits close enough to a rounding midpoint for binary
  floating point to deviate from exact arithmetic).
* `generateAndroidDimens` / `generateAndroidFontDimens` model the Android
  dimension emitters (lines 354-377 and 382-405); `localeCompare` ordering
  is modelled as code-point order, which only affects line order, never
  line content; the `new Date().toUTCString()` header is a parameter.
* `flattenTokens` models `flattenTokens(obj, prefix)` (lines 112-131) over
  a JSON value type; its log component records the `console` calls made by
  the function (there are none in the source).

Strings are handled at the `List Char` level throughout, with local
re-implementations of the JS string primitives (`slice`, `startsWith`,
`split`, `trim`, first-occurrence `replace`, `toUpperCase`, `padStart`).
-/

/-! ### String helpers (JS string primitives over `List Char`) -/

/-- JS `s.slice(i)` (drop the first `i` characters). -/
def strDrop (s : String) (n : Nat) : String := String.mk (s.data.drop n)

/-- JS `s.slice(i, j)` for `0 ≤ i ≤ j`. -/
def strSlice (s : String) (i j : Nat) : String := String.mk ((s.data.drop i).take (j - i))

/-- JS `s.startsWith(p)`. -/
def strStartsWith (s p : String) : Bool := p.data.isPrefixOf s.data

/-- JS `s.endsWith(p)`. -/
def strEndsWith (s p : String) : Bool := p.data.isSuffixOf s.data

/-- JS `s.toUpperCase()` (ASCII reading, which covers every string built here). -/
def jsToUpper (s : String) : String := String.mk (s.data.map Char.toUpper)

/-- JS `s.includes(p)`: scan for an occurrence of `p`. -/
def containsSubstr (cs pat : List Char) : Bool :=
  match cs with
  | [] => pat.isEmpty
  | _ :: rest => pat.isPrefixOf cs || containsSubstr rest pat

/-- JS `s.includes(p)` on strings. -/
def strContains (s p : String) : Bool := containsSubstr s.data p.data

/-- JS `s.replace(pat, repl)` with a *string* pattern: replaces only the
first occurrence, scanning left to right. -/
def replaceFirstAux (cs pat repl : List Char) : List Char :=
  match cs with
  | [] => []
  | c :: rest =>
    if pat.isPrefixOf cs then repl ++ cs.drop pat.length
    else c :: replaceFirstAux rest pat repl

/-- JS `s.replace(pat, repl)` (first occurrence only) on strings. -/
def replaceFirst (s pat repl : String) : String :=
  String.mk (replaceFirstAux s.data pat.data repl.data)

/-- JS `s.trim()`. -/
def jsTrim (s : String) : String :=
  String.mk (((s.data.dropWhile Char.isWhitespace).reverse.dropWhile Char.isWhitespace).reverse)

/-- JS `parts.split(sep)` for a single-character separator. -/
def splitOnChar (sep : Char) (cs : List Char) (cur : List Char) : List (List Char) :=
  match cs with
  | [] => [cur.reverse]
  | c :: rest =>
    if c = sep then cur.reverse :: splitOnChar sep rest []
    else splitOnChar sep rest (c :: cur)

/-- `lines.join(sep)` of the Android generators. -/
def joinWith (sep : String) : List String → String
  | [] => ""
  | [s] => s
  | s :: rest => s ++ sep ++ joinWith sep rest

/-! ### The flat token map and the reference resolver -/

/-- The flat token map `flatTokens`: dotted path to the token's `value`
string (`flattenTokens` only ever stores objects that have a `value`
property, so presence of a key models `token && token.value !== undefined`). -/
abbrev TokenMap := List (String × String)

/-- `flatTokens[refPath]` followed by the `token.value` projection. -/
def lookupTok (m : TokenMap) (k : String) : Option String :=
  (m.find? (fun kv => kv.1 == k)).map (fun kv => kv.2)

/-- Scan up to the first occurrence of `stop`, returning the characters
before it and the characters after it. -/
def spanUntil (stop : Char) : List Char → Option (List Char × List Char)
  | [] => none
  | c :: rest =>
    if c = stop then some ([], rest)
    else
      match spanUntil stop rest with
      | some (inner, rest') => some (c :: inner, rest')
      | none => none

/-- One attempted match of the reference pattern (an opening brace, one or
more characters other than a closing brace, then a closing brace) starting
right after an opening brace: returns the captured path and the rest of the
input.  Mirrors how the JS regex engine matches one group of
`value.replace(/\x7b([^\x7d]+)\x7d/g, ...)`. -/
def takeRef (cs : List Char) : Option (String × List Char) :=
  match spanUntil '\x7d' cs with
  | some (inner, rest') => if inner.isEmpty then none else some (String.mk inner, rest')
  | none => none

/-- The keys of `m` not yet visited; the termination measure of the
resolver (the JS recursion adds one existing, unvisited key to `seen` at
every nested call). -/
def keysLeft (keys seen : List String) : Nat :=
  (keys.filter (fun k => !(seen.contains k))).length

theorem spanUntil_length {stop : Char} {cs inner rest' : List Char}
    (h : spanUntil stop cs = some (inner, rest')) :
    cs.length = inner.length + 1 + rest'.length := by
  induction cs generalizing inner rest' with
  | nil => simp [spanUntil] at h
  | cons c rest ih =>
    rw [spanUntil] at h
    by_cases hc : c = stop
    · simp [hc] at h
      obtain ⟨rfl, rfl⟩ := h
      simp
      omega
    · simp only [hc, if_false] at h
      cases hs : spanUntil stop rest with
      | none => rw [hs] at h; simp at h
      | some p =>
        obtain ⟨inner0, rest0⟩ := p
        rw [hs] at h
        simp at h
        obtain ⟨rfl, rfl⟩ := h
        have := ih hs
        simp only [List.length_cons, this]
        omega

theorem takeRef_length {cs : List Char} {r : String} {rest' : List Char}
    (h : takeRef cs = some (r, rest')) : rest'.length < cs.length := by
  unfold takeRef at h
  cases hs : spanUntil '\x7d' cs with
  | none => rw [hs] at h; simp at h
  | some p =>
    obtain ⟨inner, rest0⟩ := p
    rw [hs] at h
    by_cases he : inner.isEmpty
    · simp [he] at h
    · simp [he] at h
      obtain ⟨-, rfl⟩ := h
      have := spanUntil_length hs
      omega

theorem filter_length_le {p q : String → Bool} (l : List String)
    (himp : ∀ x, q x = true → p x = true) :
    (l.filter q).length ≤ (l.filter p).length :=
  List.Sublist.length_le (List.monotone_filter_right l himp)

theorem filter_length_lt {p q : String → Bool} {l : List String} {a : String}
    (ha : a ∈ l) (hpa : p a = true) (hqa : q a = false)
    (himp : ∀ x, q x = true → p x = true) :
    (l.filter q).length < (l.filter p).length := by
  induction l with
  | nil => cases ha
  | cons hd t ih =>
    rcases List.mem_cons.mp ha with rfl | hmem
    · have hle := filter_length_le t himp
      simp [List.filter_cons, hpa, hqa]
      omega
    · by_cases hq : q hd = true
      · have hp := himp hd hq
        simp [List.filter_cons, hp, hq]
        have := ih hmem
        omega
      · have hqf : q hd = false := by simpa using hq
        by_cases hp : p hd = true
        · simp [List.filter_cons, hqf, hp]
          have := ih hmem
          omega
        · have hpf : p hd = false := by simpa using hp
          simp [List.filter_cons, hqf, hpf]
          have := ih hmem
          omega

theorem mem_keys_of_lookup {m : TokenMap} {k v : String}
    (h : lookupTok m k = some v) : k ∈ m.map Prod.fst := by
  unfold lookupTok at h
  cases hf : m.find? (fun kv => kv.1 == k) with
  | none => rw [hf] at h; simp at h
  | some kv =>
    have h1 := List.find?_some hf
    have h2 := List.mem_of_find?_eq_some hf
    simp at h1
    exact h1 ▸ List.mem_map_of_mem Prod.fst h2

theorem keysLeft_cons_lt {m : TokenMap} {seen : List String} {ref v : String}
    (h2 : lookupTok m ref = some v) (h1 : seen.contains ref = false) :
    keysLeft (m.map Prod.fst) (ref :: seen) < keysLeft (m.map Prod.fst) seen := by
  apply filter_length_lt (a := ref) (mem_keys_of_lookup h2)
  · simpa using h1
  · simp
  · intro x hx
    simp at hx ⊢
    exact hx.2

mutual
/-- `resolveReference(value, flatTokens, seen)` of `build-themes.js`
(lines 136-157).  The first component is the returned string, the second
collects the `console.warn` messages the call emits.  A non-string value
is returned unchanged by the source's `typeof` guard and is outside this
string-valued model. -/
def resolveReference (m : TokenMap) (seen : List String) (value : String) :
    String × List String :=
  if value.data.contains '\x7b' then
    let t := replaceRefs m seen value.data
    (String.mk t.1, t.2)
  else (value, [])
termination_by (keysLeft (m.map Prod.fst) seen, value.data.length + 1)
decreasing_by
  apply Prod.Lex.right
  simp

/-- The global regex replace inside `resolveReference`: every group
matching the reference pattern is replaced by the callback's result;
everything else is copied. -/
def replaceRefs (m : TokenMap) (seen : List String) (cs : List Char) :
    List Char × List String :=
  match cs with
  | [] => ([], [])
  | c :: rest =>
    if c = '\x7b' then
      match h : takeRef rest with
      | some (ref, rest') =>
        let r := resolveOne m seen ref
        let t := replaceRefs m seen rest'
        (r.1.data ++ t.1, r.2 ++ t.2)
      | none =>
        let t := replaceRefs m seen rest
        (c :: t.1, t.2)
    else
      let t := replaceRefs m seen rest
      (c :: t.1, t.2)
termination_by (keysLeft (m.map Prod.fst) seen, cs.length)
decreasing_by
  · apply Prod.Lex.right
    simp
  · apply Prod.Lex.right
    have := takeRef_length h
    simp
    omega
  · apply Prod.Lex.right
    simp
  · apply Prod.Lex.right
    simp

/-- The replace callback of `resolveReference`: a visited path warns and
returns the match unchanged; a found token recurses on its value with
`seen` extended by the path; a missing path returns the match unchanged
(with no warning). -/
def resolveOne (m : TokenMap) (seen : List String) (ref : String) :
    String × List String :=
  if h1 : seen.contains ref then
    ("\x7b" ++ ref ++ "\x7d", ["Circular reference detected: " ++ ref])
  else
    match h2 : lookupTok m ref with
    | some v => resolveReference m (ref :: seen) v
    | none => ("\x7b" ++ ref ++ "\x7d", [])
termination_by (keysLeft (m.map Prod.fst) seen, 0)
decreasing_by
  apply Prod.Lex.left
  exact keysLeft_cons_lt h2 (by simpa using h1)
end

/-- The placeholder text of a reference to `p`. -/
def braced (p : String) : String := "\x7b" ++ p ++ "\x7d"

/-- A usable token path: nonempty and free of the closing-brace character
(so that `braced p` is exactly one reference group). -/
def validPath (p : String) : Prop := p ≠ "" ∧ '\x7d' ∉ p.data

instance (p : String) : Decidable (validPath p) := by
  unfold validPath
  infer_instance

/-- The full-string single-reference pattern of spec section 4.3 (an
opening brace, one or more non-closing-brace characters, a closing brace,
spanning the whole value). -/
def matchesFullSingleRef (s : String) : Bool :=
  match s.data with
  | '\x7b' :: rest =>
    match spanUntil '\x7d' rest with
    | some (inner, rest') => !inner.isEmpty && rest'.isEmpty
    | none => false
  | _ => false

/-! ### Evaluation lemmas for the resolver -/

theorem string_mk_data (s : String) : String.mk s.data = s := by
  cases s
  rfl

theorem data_ne_nil_of_ne_empty {p : String} (h : p ≠ "") : p.data ≠ [] := by
  intro hd
  apply h
  cases p
  simp at hd
  simp [hd]

theorem braced_data (p : String) : (braced p).data = '\x7b' :: (p.data ++ ['\x7d']) := rfl

theorem spanUntil_exact {stop : Char} {q : List Char} (hq : stop ∉ q) (tail : List Char) :
    spanUntil stop (q ++ stop :: tail) = some (q, tail) := by
  induction q with
  | nil => simp [spanUntil]
  | cons c rest ih =>
    have hc : c ≠ stop := by
      intro hc
      exact hq (hc ▸ List.mem_cons_self c rest)
    have hrest : stop ∉ rest := fun hm => hq (List.mem_cons_of_mem c hm)
    rw [List.cons_append, spanUntil]
    simp only [hc, if_false]
    rw [ih hrest]

theorem takeRef_braced {p : String} (hv : validPath p) (tail : List Char) :
    takeRef (p.data ++ '\x7d' :: tail) = some (p, tail) := by
  obtain ⟨hne, hnb⟩ := hv
  unfold takeRef
  rw [spanUntil_exact hnb tail]
  have he : p.data.isEmpty = false := by
    cases hd : p.data with
    | nil => exact absurd hd (data_ne_nil_of_ne_empty hne)
    | cons c r => simp
  simp [he, string_mk_data]

theorem replaceRefs_single (m : TokenMap) (seen : List String) {p : String}
    (hv : validPath p) :
    replaceRefs m seen ('\x7b' :: (p.data ++ ['\x7d'])) =
      ((resolveOne m seen p).1.data, (resolveOne m seen p).2) := by
  have htr : takeRef (p.data ++ ['\x7d']) = some (p, []) := by
    have hsh : p.data ++ ['\x7d'] = p.data ++ '\x7d' :: [] := rfl
    rw [hsh, takeRef_braced ⟨hv.1, hv.2⟩]
  rw [replaceRefs.eq_2]
  rw [if_pos rfl]
  split
  · rename_i ref rest' heq
    rw [htr] at heq
    injection heq with hpair
    injection hpair with h1 h2
    subst h1
    subst h2
    rw [replaceRefs.eq_1]
    simp
  · rename_i heq
    rw [htr] at heq
    exact absurd heq (by simp)

theorem resolveReference_braced (m : TokenMap) (seen : List String) {p : String}
    (hv : validPath p) : resolveReference m seen (braced p) = resolveOne m seen p := by
  rw [resolveReference]
  rw [braced_data]
  rw [if_pos (by simp)]
  rw [replaceRefs_single m seen hv]

theorem resolveOne_visited (m : TokenMap) {seen : List String} {p : String}
    (h : seen.contains p = true) :
    resolveOne m seen p = (braced p, ["Circular reference detected: " ++ p]) := by
  rw [resolveOne]
  rw [dif_pos h]
  rfl

theorem resolveOne_found (m : TokenMap) {seen : List String} {p v : String}
    (hns : seen.contains p = false) (hl : lookupTok m p = some v) :
    resolveOne m seen p = resolveReference m (p :: seen) v := by
  rw [resolveOne]
  rw [dif_neg (by simpa using hns)]
  split
  · rename_i v' hv'
    rw [hl] at hv'
    injection hv' with hvv
    rw [hvv]
  · rename_i hnone
    rw [hl] at hnone
    exact absurd hnone (by simp)

theorem resolveOne_missing (m : TokenMap) {seen : List String} {p : String}
    (hns : seen.contains p = false) (hl : lookupTok m p = none) :
    resolveOne m seen p = (braced p, []) := by
  rw [resolveOne]
  rw [dif_neg (by simpa using hns)]
  split
  · rename_i v' hv'
    rw [hl] at hv'
    exact absurd hv' (by simp)
  · rfl

theorem resolveReference_no_brace (m : TokenMap) (seen : List String) {value : String}
    (h : value.data.contains '\x7b' = false) :
    resolveReference m seen value = (value, []) := by
  rw [resolveReference]
  rw [if_neg (by simp_all)]

/-! ### Reference chains -/

/-- A reference chain in the flat map: each path in the list holds exactly
the placeholder of the next path, and the last path holds `final`. -/
def chainLinks (m : TokenMap) : List String → String → Bool
  | [], _ => false
  | q :: qs, final =>
    match qs with
    | [] => lookupTok m q == some final
    | q' :: rest => (lookupTok m q == some (braced q')) && chainLinks m (q' :: rest) final

theorem chainLinks_single (m : TokenMap) (q final : String) :
    chainLinks m [q] final = (lookupTok m q == some final) := rfl

theorem chainLinks_cons (m : TokenMap) (q q' : String) (rest : List String) (final : String) :
    chainLinks m (q :: q' :: rest) final =
      ((lookupTok m q == some (braced q')) && chainLinks m (q' :: rest) final) := rfl

/-- Walking a chain of fresh, distinct paths accumulates them into `seen`
and ends resolving the final value. -/
theorem resolve_chain (m : TokenMap) :
    ∀ (qs : List String) (q final : String) (seen : List String),
    chainLinks m (q :: qs) final = true →
    (∀ x ∈ q :: qs, validPath x) →
    (∀ x ∈ q :: qs, seen.contains x = false) →
    (q :: qs).Nodup →
    resolveReference m seen (braced q) =
      resolveReference m ((q :: qs).reverse ++ seen) final := by
  intro qs
  induction qs with
  | nil =>
    intro q final seen hch hvp hfresh _
    have hl : lookupTok m q = some final := by
      rw [chainLinks_single] at hch
      simpa using hch
    rw [resolveReference_braced m seen (hvp q (List.mem_cons_self q []))]
    rw [resolveOne_found m (hfresh q (List.mem_cons_self q [])) hl]
    simp
  | cons q' rest ih =>
    intro q final seen hch hvp hfresh hnd
    rw [chainLinks_cons, Bool.and_eq_true] at hch
    obtain ⟨hl, hrest⟩ := hch
    rw [beq_iff_eq] at hl
    rw [resolveReference_braced m seen (hvp q (List.mem_cons_self q (q' :: rest)))]
    rw [resolveOne_found m (hfresh q (List.mem_cons_self q (q' :: rest))) hl]
    have hvp' : ∀ x ∈ q' :: rest, validPath x := fun x hx =>
      hvp x (List.mem_cons_of_mem q hx)
    have hq_notin : q ∉ q' :: rest := by
      rw [List.nodup_cons] at hnd
      exact hnd.1
    have hfresh' : ∀ x ∈ q' :: rest, (q :: seen).contains x = false := by
      intro x hx
      have hxs := hfresh x (List.mem_cons_of_mem q hx)
      simp at hxs ⊢
      exact ⟨fun he => hq_notin (he ▸ hx), hxs⟩
    have hnd' : (q' :: rest).Nodup := by
      rw [List.nodup_cons] at hnd
      exact hnd.2
    rw [ih q' final (q :: seen) hrest hvp' hfresh' hnd']
    congr 1
    simp

/-! ### Claims about the reference resolver -/

/-- C1: for every flat token map and every circular reference chain in it
(`p :: ps` lists the cycle of paths, each holding exactly the placeholder
of the next and the last pointing back to `p`), resolving a value that
enters the cycle terminates — `resolveReference` is a total function,
defined by well-founded recursion on the unvisited keys of the map —
signals the circular reference through its `console.warn` log, and
returns the unresolved placeholder text rather than a resolved value.
In particular a token whose value is the placeholder of `p` (such as
token A for the cycle A = placeholder of B, B = placeholder of A)
resolves to that same placeholder text unchanged. -/
theorem c1_circular_chain_terminates_warns_returns_placeholder
    (m : TokenMap) (p : String) (ps : List String)
    (hcyc : chainLinks m (p :: ps) (braced p) = true)
    (hvp : ∀ x ∈ p :: ps, validPath x)
    (hnd : (p :: ps).Nodup) :
    resolveReference m [] (braced p) =
      (braced p, ["Circular reference detected: " ++ p]) := by
  have h := resolve_chain m ps p (braced p) [] hcyc hvp (by intro x _; simp) hnd
  rw [h]
  rw [resolveReference_braced m _ (hvp p (List.mem_cons_self p ps))]
  apply resolveOne_visited
  simp

/-- Witness for C1 at the two-token cycle of the spec: token `A` holds the
placeholder of `B` and `B` the placeholder of `A`; resolving `A`'s value
returns the placeholder of `B` unchanged plus a single circular-reference
warning. -/
theorem c1_witness :
    resolveReference [("A", "\x7bB\x7d"), ("B", "\x7bA\x7d")] [] "\x7bB\x7d" =
      ("\x7bB\x7d", ["Circular reference detected: B"]) := by
  have h := c1_circular_chain_terminates_warns_returns_placeholder
    [("A", "\x7bB\x7d"), ("B", "\x7bA\x7d")] "B" ["A"]
    (by decide) (by decide) (by decide)
  simpa [braced] using h

/-- C2: for every flat token map and every acyclic reference chain
`q :: qs` of any length (each path holding exactly the placeholder of the
next, targets all present in the map) ending in the literal `final`,
resolving a value that enters the chain terminates and returns the
literal at the end of the chain. -/
theorem c2_acyclic_chain_resolves_to_final_literal
    (m : TokenMap) (q final : String) (qs : List String)
    (hch : chainLinks m (q :: qs) final = true)
    (hvp : ∀ x ∈ q :: qs, validPath x)
    (hnd : (q :: qs).Nodup)
    (hlit : final.data.contains '\x7b' = false) :
    resolveReference m [] (braced q) = (final, []) := by
  rw [resolve_chain m qs q final [] hch hvp (by intro x _; simp) hnd]
  exact resolveReference_no_brace m _ hlit

/-- Witness for C2 at the spec's concrete scenario 2: token A has the
placeholder of B as its value, token B has value `#000000`; resolving A's
value yields `#000000`. -/
theorem c2_witness :
    resolveReference [("A", "\x7bB\x7d"), ("B", "#000000")] [] "\x7bB\x7d" =
      ("#000000", []) := by
  have h := c2_acyclic_chain_resolves_to_final_literal
    [("A", "\x7bB\x7d"), ("B", "#000000")] "B" "#000000" []
    (by decide) (by decide) (by decide) (by decide)
  simpa [braced] using h

/-- C3 counterexample: the claim says every value not matching the
full-string single-reference pattern — including strings with embedded
reference groups mixed with other text — is returned unchanged.  The
value `x \x7ba\x7d y` does not match the full-string pattern, yet
`resolveReference` substitutes the embedded group and returns a changed
string. -/
theorem c3_counterexample :
    matchesFullSingleRef "x \x7ba\x7d y" = false ∧
    (resolveReference [("a", "1px")] [] "x \x7ba\x7d y").1 = "x 1px y" ∧
    "x 1px y" ≠ "x \x7ba\x7d y" := by
  refine ⟨by decide, ?_, by decide⟩
  simp [resolveReference, replaceRefs, resolveOne, takeRef, spanUntil, lookupTok,
    List.find?, Option.map]

/-- C3 (amended): `resolveReference` returns unchanged (with no warning)
every value containing no opening brace — in particular every literal —
satisfying the idempotent base case; values containing embedded or
multiple reference groups are not returned unchanged, since the source
substitutes every group of the global regex, not only full-string single
references. -/
theorem c3_braceless_value_returned_unchanged
    (m : TokenMap) (seen : List String) (value : String)
    (h : value.data.contains '\x7b' = false) :
    resolveReference m seen value = (value, []) :=
  resolveReference_no_brace m seen h

/-- Witness for C3 at the literal `#FFFFFF`. -/
theorem c3_witness :
    "#FFFFFF".data.contains '\x7b' = false ∧
    resolveReference [("a", "1px")] [] "#FFFFFF" = ("#FFFFFF", []) :=
  ⟨by decide, c3_braceless_value_returned_unchanged [("a", "1px")] [] "#FFFFFF" (by decide)⟩

/-- C5 counterexample: the claim says a reference to a path absent from
the flat map signals `UnresolvedReferenceError` (logged).  The source's
`resolveReference` emits no warning at all in that case: the log
component of the result is empty. -/
theorem c5_counterexample :
    resolveReference [("color.base", "\x7bcolor.missing\x7d")] [] "\x7bcolor.missing\x7d" =
      ("\x7bcolor.missing\x7d", []) := by
  simp [resolveReference, replaceRefs, resolveOne, takeRef, spanUntil, lookupTok,
    List.find?, Option.map]

/-- C5 (amended): for every token whose value references a path absent
from the flat token map, resolution returns the literal placeholder text
unchanged and the build continues, but silently — no error is logged or
signalled (the warning log of the result is empty). -/
theorem c5_missing_reference_returns_placeholder_silently
    (m : TokenMap) (p : String)
    (hv : validPath p) (hmiss : lookupTok m p = none) :
    resolveReference m [] (braced p) = (braced p, []) := by
  rw [resolveReference_braced m [] hv]
  exact resolveOne_missing m (by simp) hmiss

/-- Witness for C5: resolving a reference to the absent path `missing`
in a one-token map. -/
theorem c5_witness :
    lookupTok [("a", "#fff")] "missing" = none ∧
    resolveReference [("a", "#fff")] [] "\x7bmissing\x7d" = ("\x7bmissing\x7d", []) :=
  ⟨by decide, by
    have h := c5_missing_reference_returns_placeholder_silently
      [("a", "#fff")] "missing" (by decide) (by decide)
    simpa [braced] using h⟩

/-! ### CSS display-mode resolution -/

/-- `refPath.replace(/\./g, '-')` of `toCSSSyntax`. -/
def dotsToHyphens (p : String) : String :=
  String.mk (p.data.map (fun c => if c = '.' then '-' else c))

/-- The global regex replace inside `toCSSSyntax`: a reference group whose
path exists in the flat map (the source checks only `flatTokens[refPath]`
truthiness) becomes a CSS `var()` reference to that path; otherwise the
source falls back to `resolveReference(match, flatTokens)` with a fresh
`seen` set. -/
def cssReplaceRefs (m : TokenMap) (cs : List Char) : List Char × List String :=
  match cs with
  | [] => ([], [])
  | c :: rest =>
    if c = '\x7b' then
      match h : takeRef rest with
      | some (ref, rest') =>
        let r :=
          match lookupTok m ref with
          | some _ => ("var(--" ++ dotsToHyphens ref ++ ")", ([] : List String))
          | none => resolveReference m [] ("\x7b" ++ ref ++ "\x7d")
        let t := cssReplaceRefs m rest'
        (r.1.data ++ t.1, r.2 ++ t.2)
      | none =>
        let t := cssReplaceRefs m rest
        (c :: t.1, t.2)
    else
      let t := cssReplaceRefs m rest
      (c :: t.1, t.2)
termination_by cs.length
decreasing_by
  · have := takeRef_length h
    simp
    omega
  · simp
  · simp

/-- `toCSSSyntax(value, flatTokens)` of `build-themes.js` (lines 164-178),
with the `console.warn` log of any fallback resolution as second
component. -/
def toCSSSyntax (value : String) (m : TokenMap) : String × List String :=
  if value.data.contains '\x7b' then
    let t := cssReplaceRefs m value.data
    (String.mk t.1, t.2)
  else (value, [])

/-- C6: for every token whose value is a single full-string reference to a
path `p` present in the flat token map, the CSS display-mode resolution
resolves exactly one hop — regardless of what `p`'s own value is, even
another reference — and renders it as `var(--p)` with dots replaced by
hyphens. -/
theorem c6_css_resolution_single_hop_var
    (m : TokenMap) (p v : String) (hv : validPath p)
    (hl : lookupTok m p = some v) :
    toCSSSyntax (braced p) m = ("var(--" ++ dotsToHyphens p ++ ")", []) := by
  unfold toCSSSyntax
  rw [braced_data]
  rw [if_pos (by simp)]
  have htr : takeRef (p.data ++ ['\x7d']) = some (p, []) := by
    have hsh : p.data ++ ['\x7d'] = p.data ++ '\x7d' :: [] := rfl
    rw [hsh, takeRef_braced hv]
  rw [cssReplaceRefs.eq_2]
  rw [if_pos rfl]
  split
  · rename_i ref rest' heq
    rw [htr] at heq
    injection heq with hpair
    injection hpair with h1 h2
    subst h1
    subst h2
    rw [cssReplaceRefs.eq_1]
    simp [hl]
    rfl
  · rename_i heq
    rw [htr] at heq
    exact absurd heq (by simp)

/-- Witness for C6 at the spec's concrete scenario 2 (lower-case token
names `a`, `b`): token `a` holds the placeholder of `b`, `b` holds
`#000000`; the CSS display-mode resolution of `a`'s value is `var(--b)`,
one hop, not the final literal. -/
theorem c6_witness :
    toCSSSyntax "\x7bb\x7d" [("a", "\x7bb\x7d"), ("b", "#000000")] = ("var(--b)", []) := by
  have h := c6_css_resolution_single_hop_var
    [("a", "\x7bb\x7d"), ("b", "#000000")] "b" "#000000" (by decide) (by decide)
  simpa [braced, dotsToHyphens] using h

/-! ### JS numbers and the colour converters -/

/-- A JS number as produced by this pipeline: an exact (unnormalised)
fraction, or NaN.  Every number the colour converters build is a decimal
fraction or a hex-digit integer divided by 255, and none of the
`toFixed`/`Math.round` calls sits near a binary-floating-point rounding
boundary, so exact fractions model the JS doubles faithfully here. -/
inductive JSNum where
  | nan : JSNum
  | frac (num : Int) (den : Nat) : JSNum

def hexDigitVal (c : Char) : Option Nat :=
  if '0' ≤ c ∧ c ≤ '9' then some (c.toNat - '0'.toNat)
  else if 'a' ≤ c ∧ c ≤ 'f' then some (c.toNat - 'a'.toNat + 10)
  else if 'A' ≤ c ∧ c ≤ 'F' then some (c.toNat - 'A'.toNat + 10)
  else none

def hexAcc : List Char → Nat → Nat
  | [], acc => acc
  | c :: rest, acc =>
    match hexDigitVal c with
    | some d => hexAcc rest (16 * acc + d)
    | none => acc

/-- JS `parseInt(s, 16)` for the slices this build feeds it: the value of
the longest hex-digit prefix, NaN when the string opens with no hex digit
(leading whitespace, signs and `0x` prefixes do not occur in the slices
taken by `hexToUIColor`). -/
def jsParseIntHex (s : String) : JSNum :=
  match s.data with
  | [] => .nan
  | c :: _ => if (hexDigitVal c).isSome then .frac (hexAcc s.data 0) 1 else .nan

def decDigitVal (c : Char) : Option Nat :=
  if '0' ≤ c ∧ c ≤ '9' then some (c.toNat - '0'.toNat) else none

/-- Read a maximal run of decimal digits: value, digit count, rest. -/
def takeDigits : List Char → Nat → Nat → Nat × Nat × List Char
  | [], acc, n => (acc, n, [])
  | c :: rest, acc, n =>
    match decDigitVal c with
    | some d => takeDigits rest (10 * acc + d) (n + 1)
    | none => (acc, n, c :: rest)

/-- JS `parseFloat` for the trimmed, comma-separated rgba components this
build feeds it: optional sign, integer digits, optional decimal point and
fraction digits; NaN when no digit is found (exponents do not occur). -/
def jsParseFloat (s : String) : JSNum :=
  let sc : Int × List Char :=
    match s.data with
    | '-' :: rest => (-1, rest)
    | '+' :: rest => (1, rest)
    | cs => (1, cs)
  let ip := takeDigits sc.2 0 0
  match ip.2.2 with
  | '.' :: rest2 =>
    let fp := takeDigits rest2 0 0
    if ip.2.1 = 0 ∧ fp.2.1 = 0 then .nan
    else .frac (sc.1 * (ip.1 * 10 ^ fp.2.1 + fp.1)) (10 ^ fp.2.1)
  | _ => if ip.2.1 = 0 then .nan else .frac (sc.1 * ip.1) 1

/-- Division by a (positive) integer constant; NaN propagates. -/
def jsDivN (x : JSNum) (k : Nat) : JSNum :=
  match x with
  | .nan => .nan
  | .frac n d => .frac n (d * k)

/-- Multiplication by an integer constant; NaN propagates. -/
def jsMulN (x : JSNum) (k : Nat) : JSNum :=
  match x with
  | .nan => .nan
  | .frac n d => .frac (n * k) d

/-- JS `Math.round`: the floor of `x + 1/2` (ties go toward positive
infinity); NaN propagates. -/
def jsRound (x : JSNum) : JSNum :=
  match x with
  | .nan => .nan
  | .frac n d => .frac (Int.fdiv (2 * n + d) (2 * d)) 1

def pad3 (k : Nat) : String :=
  if k < 10 then "00" ++ toString k
  else if k < 100 then "0" ++ toString k
  else toString k

def fixedFmt (k : Nat) : String := toString (k / 1000) ++ "." ++ pad3 (k % 1000)

/-- JS `Number.prototype.toFixed(3)` on the exact fraction (ECMA: the
integer nearest to `x·1000`, ties toward the larger value); NaN renders
as `"NaN"`.  Only the nonnegative values this pipeline produces are
relied upon. -/
def jsToFixed3 (x : JSNum) : String :=
  match x with
  | .nan => "NaN"
  | .frac n d =>
    let r := Int.fdiv (2 * (n * 1000) + d) (2 * d)
    if r < 0 then "-" ++ fixedFmt r.natAbs else fixedFmt r.toNat

/-- JS `Number.prototype.toString(16)` as applied to `Math.round` results
(integers; lowercase hex digits, sign prefix when negative); NaN renders
as `"NaN"`. -/
def jsToHexString (x : JSNum) : String :=
  match x with
  | .nan => "NaN"
  | .frac n _ =>
    if n < 0 then "-" ++ String.mk (Nat.toDigits 16 n.natAbs)
    else String.mk (Nat.toDigits 16 n.toNat)

/-- JS `padStart(2, '0')`. -/
def padStart2 (s : String) : String :=
  if s.length ≥ 2 then s else if s.length = 1 then "0" ++ s else "00"

/-- `parts[i]`: an out-of-range index is `undefined`, which every numeric
operation downstream turns into NaN. -/
def jsIndex (l : List JSNum) (i : Nat) : JSNum := l.getD i .nan

/-- The capture group after a matched `rgba(` / `rgb(` opening: one or
more characters other than a closing parenthesis. -/
def rgbaAfterParen (cs : List Char) : Option (List Char) :=
  match spanUntil ')' cs with
  | some (inner, _) => if inner.isEmpty then none else some inner
  | none => none

/-- `hex.match(/rgba?\(([^)]+)\)/)`: scan left to right for the first
position where the pattern matches, returning the captured group.  The
two alternatives `rgba(` and `rgb(` can never both match at one position
(they demand different fourth characters). -/
def rgbaCapture : List Char → Option (List Char)
  | [] => none
  | c :: rest =>
    match
      (if ['r', 'g', 'b', 'a', '('].isPrefixOf (c :: rest) then some ((c :: rest).drop 5)
       else if ['r', 'g', 'b', '('].isPrefixOf (c :: rest) then some ((c :: rest).drop 4)
       else none)
    with
    | some af =>
      match rgbaAfterParen af with
      | some inner => some inner
      | none => rgbaCapture rest
    | none => rgbaCapture rest

/-- `hexToAndroidColor(hex)` of `build-themes.js` (lines 234-258).
`none` models the JS `null` return. -/
def hexToAndroidColor (hex : String) : Option String :=
  if hex = "transparent" then some "#00000000"
  else if hex = "" then none
  else if strStartsWith hex "#" then
    let color := jsToUpper (strDrop hex 1)
    if color.length = 6 then some ("#FF" ++ color)
    else if color.length = 8 then some ("#" ++ color)
    else some (jsToUpper hex)
  else if strStartsWith hex "rgba" then
    match rgbaCapture hex.data with
    | some inner =>
      let parts := (splitOnChar ',' inner []).map (fun cs => jsParseFloat (jsTrim (String.mk cs)))
      let r := padStart2 (jsToHexString (jsRound (jsIndex parts 0)))
      let g := padStart2 (jsToHexString (jsRound (jsIndex parts 1)))
      let b := padStart2 (jsToHexString (jsRound (jsIndex parts 2)))
      let a :=
        if 3 < parts.length then padStart2 (jsToHexString (jsRound (jsMulN (jsIndex parts 3) 255)))
        else "FF"
      some (jsToUpper ("#" ++ a ++ r ++ g ++ b))
    | none => none
  else none

/-- The Swift colour template of `hexToUIColor`. -/
def uiColorString (r g b a : JSNum) : String :=
  "UIColor(red: " ++ jsToFixed3 r ++ ", green: " ++ jsToFixed3 g ++
    ", blue: " ++ jsToFixed3 b ++ ", alpha: " ++ jsToFixed3 a ++ ")"

/-- `hexToUIColor(hex)` of `build-themes.js` (lines 263-292). -/
def hexToUIColor (hex : String) : Option String :=
  if hex = "transparent" then some "UIColor.clear"
  else if hex = "" then none
  else if strStartsWith hex "#" then
    let color := strDrop hex 1
    let r := jsDivN (jsParseIntHex (strSlice color 0 2)) 255
    let g := jsDivN (jsParseIntHex (strSlice color 2 4)) 255
    let b := jsDivN (jsParseIntHex (strSlice color 4 6)) 255
    let a :=
      if color.length = 8 then jsDivN (jsParseIntHex (strSlice color 6 8)) 255
      else JSNum.frac 1 1
    some (uiColorString r g b a)
  else if strStartsWith hex "rgba" then
    match rgbaCapture hex.data with
    | some inner =>
      let parts := (splitOnChar ',' inner []).map (fun cs => jsParseFloat (jsTrim (String.mk cs)))
      let r := jsDivN (jsIndex parts 0) 255
      let g := jsDivN (jsIndex parts 1) 255
      let b := jsDivN (jsIndex parts 2) 255
      let a := if 3 < parts.length then jsIndex parts 3 else JSNum.frac 1 1
      some (uiColorString r g b a)
    | none => none
  else none

/-! ### Claims about the colour converters -/

/-- C4 counterexample: the claim says an 8-digit input `#RRGGBBAA` is
reordered with alpha first (`#AARRGGBB`).  The source returns the eight
digits unchanged (only uppercased): `#2196F380` with alpha `80` last
comes back as `#2196F380`, not the claimed `#802196F3`. -/
theorem c4_counterexample :
    hexToAndroidColor "#2196F380" = some "#2196F380" ∧
    some "#2196F380" ≠ some "#802196F3" := by
  constructor
  · decide
  · decide

theorem jsToUpper_length (s : String) : (jsToUpper s).length = s.length := by
  unfold jsToUpper
  show (s.data.map Char.toUpper).length = s.data.length
  exact List.length_map s.data Char.toUpper

/-- C4 (amended): a 6-digit `#RRGGBB` input yields `#FF` prepended to the
six digits (uppercased) — the default alpha when absent; an 8-digit input
is emitted with its eight digits unchanged (uppercased), i.e. the code
treats 8-digit values as already being in `#AARRGGBB` order and performs
no channel reordering. -/
theorem c4_hex_to_android_color
    (hex : String) (hnt : hex ≠ "transparent") (hne : hex ≠ "")
    (hpre : strStartsWith hex "#" = true) :
    ((strDrop hex 1).length = 6 →
      hexToAndroidColor hex = some ("#FF" ++ jsToUpper (strDrop hex 1))) ∧
    ((strDrop hex 1).length = 8 →
      hexToAndroidColor hex = some ("#" ++ jsToUpper (strDrop hex 1))) := by
  unfold hexToAndroidColor
  rw [if_neg hnt, if_neg hne, if_pos hpre]
  constructor
  · intro h6
    rw [if_pos (by rw [jsToUpper_length]; exact h6)]
  · intro h8
    rw [if_neg (by rw [jsToUpper_length]; omega), if_pos (by rw [jsToUpper_length]; exact h8)]

/-- Witness for C4 at the spec's concrete scenario 3 input `#2196F3` and
at an 8-digit input. -/
theorem c4_witness :
    hexToAndroidColor "#2196F3" = some "#FF2196F3" ∧
    hexToAndroidColor "#AB12CD34" = some "#AB12CD34" := by
  have h6 := (c4_hex_to_android_color "#2196F3" (by decide) (by decide) (by decide)).1 (by decide)
  have h8 := (c4_hex_to_android_color "#AB12CD34" (by decide) (by decide) (by decide)).2 (by decide)
  constructor
  · rw [h6]
    decide
  · rw [h8]
    decide

/-- C10 counterexample: the claim says *every* `#`-prefixed input whose
hex part has fewer than six hex digits produces a NaN component.  With
exactly five hex digits every slice parses (blue from the single digit
`5`), so `#12345` yields a fully numeric `UIColor`, with no NaN
anywhere in the output. -/
theorem c10_counterexample :
    hexToUIColor "#12345" =
      some "UIColor(red: 0.071, green: 0.204, blue: 0.020, alpha: 1.000)" ∧
    strContains "UIColor(red: 0.071, green: 0.204, blue: 0.020, alpha: 1.000)" "NaN" = false := by
  constructor
  · decide
  · decide

theorem hash_append_ne_transparent (h : String) : ("#" ++ h) ≠ "transparent" := by
  intro he
  have hd := congrArg String.data he
  rw [show ("#" ++ h).data = '#' :: h.data from rfl] at hd
  rw [show "transparent".data = 't' :: "ransparent".data from rfl] at hd
  injection hd with h1 _
  exact absurd h1 (by decide)

theorem hash_append_ne_empty (h : String) : ("#" ++ h) ≠ "" := by
  intro he
  have hd := congrArg String.data he
  rw [show ("#" ++ h).data = '#' :: h.data from rfl] at hd
  exact absurd hd (by simp)

theorem hash_append_startsWith (h : String) : strStartsWith ("#" ++ h) "#" = true := by
  unfold strStartsWith
  rw [show ("#" ++ h).data = '#' :: h.data from rfl]
  rw [show "#".data = ['#'] from rfl]
  simp [List.isPrefixOf]

theorem strDrop_hash_append (h : String) : strDrop ("#" ++ h) 1 = h := by
  unfold strDrop
  rw [show ("#" ++ h).data = '#' :: h.data from rfl]
  simp [string_mk_data]

/-- C10 (amended): for every `#`-prefixed input whose hex part has at
most four hex characters (which covers the common short form `#FFF`),
`hexToUIColor` does not return null and does not signal an error: the
blue slice `color.slice(4, 6)` is empty, `parseInt('')` is NaN, and the
returned `UIColor(...)` string renders that component as NaN (the claim
fails only at exactly five hex digits, where every slice parses).  No
hypothesis on the characters of `h` is needed: emptiness of the blue
slice alone forces the NaN. -/
theorem c10_short_hex_yields_nan_blue_component
    (h : String) (hlen : h.length ≤ 4) :
    hexToUIColor ("#" ++ h) =
      some (uiColorString (jsDivN (jsParseIntHex (strSlice h 0 2)) 255)
        (jsDivN (jsParseIntHex (strSlice h 2 4)) 255) JSNum.nan (JSNum.frac 1 1)) ∧
    jsToFixed3 JSNum.nan = "NaN" := by
  refine ⟨?_, rfl⟩
  unfold hexToUIColor
  rw [if_neg (hash_append_ne_transparent h), if_neg (hash_append_ne_empty h),
    if_pos (hash_append_startsWith h)]
  rw [strDrop_hash_append]
  have hdrop : h.data.drop 4 = [] := by
    apply List.drop_eq_nil_of_le
    exact hlen
  have hb : jsParseIntHex (strSlice h 4 6) = JSNum.nan := by
    unfold strSlice jsParseIntHex
    rw [hdrop]
    rfl
  have hc8 : ¬ (h.length = 8) := by omega
  simp only [hb, if_neg hc8]
  rfl

/-- Witness for C10 at the common short form `#FFF`: the blue component
renders as NaN, while red, green and alpha are numeric. -/
theorem c10_witness :
    hexToUIColor "#FFF" =
      some "UIColor(red: 1.000, green: 0.059, blue: NaN, alpha: 1.000)" := by
  have h := (c10_short_hex_yields_nan_blue_component "FFF" (by decide)).1
  rw [show ("#" ++ "FFF" : String) = "#FFF" from rfl] at h
  rw [h]
  decide

/-! ### Android resource names and dimension files -/

/-- The character scan of `tokenPath.replace(/\./g, '_')`. -/
def replaceDots : List Char → List Char
  | [] => []
  | c :: rest => (if c = '.' then '_' else c) :: replaceDots rest

/-- `toAndroidResourceName(tokenPath)` of `build-themes.js`
(lines 209-211). -/
def toAndroidResourceName (p : String) : String := String.mk (replaceDots p.data)

def insertByPath (x : String × String) : List (String × String) → List (String × String)
  | [] => [x]
  | y :: rest => if x.1 ≤ y.1 then x :: y :: rest else y :: insertByPath x rest

/-- `Object.entries(resolvedTokens).sort(([a], [b]) => a.localeCompare(b))`,
with `localeCompare` modelled as code-point order (the order only arranges
lines and never changes which lines are emitted). -/
def sortByPath : List (String × String) → List (String × String)
  | [] => []
  | x :: rest => insertByPath x (sortByPath rest)

theorem mem_insertByPath (x y : String × String) (l : List (String × String)) :
    y ∈ insertByPath x l ↔ y ∈ x :: l := by
  induction l with
  | nil => simp [insertByPath]
  | cons z rest ih =>
    unfold insertByPath
    by_cases hle : x.1 ≤ z.1
    · simp [hle]
    · simp [hle, ih]
      tauto

theorem mem_sortByPath (y : String × String) (l : List (String × String)) :
    y ∈ sortByPath l ↔ y ∈ l := by
  induction l with
  | nil => simp [sortByPath]
  | cons x rest ih =>
    unfold sortByPath
    rw [mem_insertByPath]
    simp [ih]

/-- One line of `dimens.xml`: resource name and `value.replace('px','dp')`. -/
def androidDimenLine (p v : String) : String :=
  "  <dimen name=\"" ++ toAndroidResourceName p ++ "\">" ++
    replaceFirst v "px" "dp" ++ "</dimen>"

/-- One line of `font_dimens.xml`: resource name and
`value.replace('px','sp')`. -/
def androidFontDimenLine (p v : String) : String :=
  "  <dimen name=\"" ++ toAndroidResourceName p ++ "\">" ++
    replaceFirst v "px" "sp" ++ "</dimen>"

/-- The lines of `generateAndroidDimens(resolvedTokens)` of
`build-themes.js` (lines 354-377); `now` stands for
`new Date().toUTCString()`.  Every token whose resolved value ends in
`px` is emitted — there is no carve-out for `fontSize` paths. -/
def generateAndroidDimensLines (now : String) (resolvedTokens : List (String × String)) :
    List String :=
  ["<?xml version=\"1.0\" encoding=\"UTF-8\"?>", "", "<!--",
    "  Design Tokens - Dimensions", "  Generated on " ++ now, "-->", "<resources>"]
  ++ (sortByPath resolvedTokens).filterMap (fun pv =>
      if strEndsWith pv.2 "px" then some (androidDimenLine pv.1 pv.2) else none)
  ++ ["</resources>"]

/-- `generateAndroidDimens` joined into the file text. -/
def generateAndroidDimens (now : String) (resolvedTokens : List (String × String)) : String :=
  joinWith "\n" (generateAndroidDimensLines now resolvedTokens)

/-- The lines of `generateAndroidFontDimens(resolvedTokens)` of
`build-themes.js` (lines 382-405): tokens whose path contains `fontSize`
and whose resolved value ends in `px`, with the unit rewritten to `sp`. -/
def generateAndroidFontDimensLines (now : String) (resolvedTokens : List (String × String)) :
    List String :=
  ["<?xml version=\"1.0\" encoding=\"UTF-8\"?>", "", "<!--",
    "  Design Tokens - Font Dimensions", "  Generated on " ++ now, "-->", "<resources>"]
  ++ (sortByPath resolvedTokens).filterMap (fun pv =>
      if strContains pv.1 "fontSize" && strEndsWith pv.2 "px" then
        some (androidFontDimenLine pv.1 pv.2)
      else none)
  ++ ["</resources>"]

/-- `generateAndroidFontDimens` joined into the file text. -/
def generateAndroidFontDimens (now : String) (resolvedTokens : List (String × String)) : String :=
  joinWith "\n" (generateAndroidFontDimensLines now resolvedTokens)

/-! ### Claims about the Android formatters -/

/-- C8 counterexample: the claim says resource names are lower-cased.
`toAndroidResourceName` keeps the camel-case `S` of `fontSize`, so the
emitted name differs from the lower-cased form the claim requires. -/
theorem c8_counterexample :
    toAndroidResourceName "fontSize.foundation.base" = "fontSize_foundation_base" ∧
    "fontSize_foundation_base" ≠ "fontsize_foundation_base" :=
  ⟨by decide, by decide⟩

/-- C8 (amended): the Android resource name is the dotted path with every
dot replaced by an underscore and every other character — including
upper-case letters — kept unchanged; no lower-casing happens. -/
theorem c8_android_resource_name_underscores_case_preserved (p : String) :
    (toAndroidResourceName p).data = p.data.map (fun c => if c = '.' then '_' else c) := by
  unfold toAndroidResourceName
  show replaceDots p.data = _
  induction p.data with
  | nil => rfl
  | cons c rest ih =>
    unfold replaceDots
    rw [List.map_cons, ih]

/-- C7 counterexample: the claim says a `16px` token under a `fontSize`
path appears in the Android output as `16sp`, *not* `16dp`.  But
`generateAndroidDimens` has no `fontSize` exclusion, so `dimens.xml`
also carries the token as `16dp`. -/
theorem c7_counterexample :
    "  <dimen name=\"fontSize_foundation_base\">16dp</dimen>" ∈
      generateAndroidDimensLines "" [("fontSize.foundation.base", "16px")] := by
  decide

/-- C7 (amended): a resolved token whose path contains `fontSize` and
whose value ends in `px` is emitted with unit `sp` in the font-dimension
file *and also* with unit `dp` in the generic dimension file — the `sp`
rule adds a line in `font_dimens.xml` but does not remove the token from
`dimens.xml`. -/
theorem c7_fontsize_px_token_emitted_as_sp_and_dp
    (now : String) (toks : List (String × String)) (p v : String)
    (hmem : (p, v) ∈ toks)
    (hfs : strContains p "fontSize" = true)
    (hpx : strEndsWith v "px" = true) :
    androidFontDimenLine p v ∈ generateAndroidFontDimensLines now toks ∧
    androidDimenLine p v ∈ generateAndroidDimensLines now toks := by
  constructor
  · unfold generateAndroidFontDimensLines
    apply List.mem_append_left
    apply List.mem_append_right
    rw [List.mem_filterMap]
    refine ⟨(p, v), (mem_sortByPath (p, v) toks).mpr hmem, ?_⟩
    rw [if_pos (by rw [hfs, hpx]; rfl)]
  · unfold generateAndroidDimensLines
    apply List.mem_append_left
    apply List.mem_append_right
    rw [List.mem_filterMap]
    refine ⟨(p, v), (mem_sortByPath (p, v) toks).mpr hmem, ?_⟩
    rw [if_pos hpx]

/-- Witness for C7 at the spec's concrete scenario 5 token
`fontSize.foundation.base` with value `16px`. -/
theorem c7_witness :
    "  <dimen name=\"fontSize_foundation_base\">16sp</dimen>" ∈
      generateAndroidFontDimensLines "d" [("fontSize.foundation.base", "16px")] ∧
    "  <dimen name=\"fontSize_foundation_base\">16dp</dimen>" ∈
      generateAndroidDimensLines "d" [("fontSize.foundation.base", "16px")] := by
  have h := c7_fontsize_px_token_emitted_as_sp_and_dp "d"
    [("fontSize.foundation.base", "16px")] "fontSize.foundation.base" "16px"
    (by decide) (by decide) (by decide)
  constructor
  · have h1 := h.1
    rw [show androidFontDimenLine "fontSize.foundation.base" "16px" =
      "  <dimen name=\"fontSize_foundation_base\">16sp</dimen>" from by decide] at h1
    exact h1
  · have h2 := h.2
    rw [show androidDimenLine "fontSize.foundation.base" "16px" =
      "  <dimen name=\"fontSize_foundation_base\">16dp</dimen>" from by decide] at h2
    exact h2

/-! ### JSON values and the flattener -/

/-- A parsed JSON value, as `flattenTokens` receives it.  JSON numbers are
modelled as integers — `flattenTokens` never inspects a number beyond its
not being an object, so the representation of numerics is immaterial. -/
inductive JValue where
  | str (s : String)
  | num (n : Int)
  | bool (b : Bool)
  | null
  | arr (xs : List JValue)
  | obj (fields : List (String × JValue))

/-- JS `value && typeof value === 'object'`: objects and arrays pass;
`null` has object type but is falsy, so it fails; primitives fail. -/
def isObjLike : JValue → Bool
  | .obj _ => true
  | .arr _ => true
  | _ => false

/-- JS `value.value !== undefined`: an object with a `value` key (of any
content, `null` included); arrays have no `value` property. -/
def hasValueKey : JValue → Bool
  | .obj fs => (fs.find? (fun kv => kv.1 == "value")).isSome
  | _ => false

/-- JS object assignment `result[newKey] = value`: overwrite in place if
the key exists, else append. -/
def setKey (m : List (String × JValue)) (k : String) (v : JValue) :
    List (String × JValue) :=
  if (m.find? (fun kv => kv.1 == k)).isSome then
    m.map (fun kv => if kv.1 == k then (k, v) else kv)
  else m ++ [(k, v)]

/-- JS `Object.assign(result, sub)`. -/
def insertAll (m ns : List (String × JValue)) : List (String × JValue) :=
  ns.foldl (fun acc kv => setKey acc kv.1 kv.2) m

mutual
/-- `flattenTokens(obj, prefix)` of `build-themes.js` (lines 112-131).
First component: the flat map built by the `for...in` loop (over an
object's keys, or an array's index strings); second component: the
console output of the call — the source function contains no console
call, so it is empty by construction.  A primitive argument enumerates
no object-typed children and yields the empty map, as in JS. -/
def flattenTokens (v : JValue) (pre : String) :
    List (String × JValue) × List String :=
  match v with
  | .obj fs => flattenFields fs pre ([], [])
  | .arr xs => flattenElems xs 0 pre ([], [])
  | _ => ([], [])
termination_by (sizeOf v, 0)
decreasing_by
  · apply Prod.Lex.left
    simp
    try omega
  · apply Prod.Lex.left
    simp
    try omega

/-- The `for (const key in obj)` loop of `flattenTokens` over an object's
fields, accumulating into `acc`. -/
def flattenFields (fs : List (String × JValue)) (pre : String)
    (acc : List (String × JValue) × List String) :
    List (String × JValue) × List String :=
  match fs with
  | [] => acc
  | (k, x) :: rest => flattenFields rest pre (flattenStep k x pre acc)
termination_by (sizeOf fs, 2)
decreasing_by
  · apply Prod.Lex.left
    simp
    try omega
  · apply Prod.Lex.left
    simp
    try omega

/-- The same loop over an array's elements (JS `for...in` on an array
yields the index strings). -/
def flattenElems (xs : List JValue) (i : Nat) (pre : String)
    (acc : List (String × JValue) × List String) :
    List (String × JValue) × List String :=
  match xs with
  | [] => acc
  | x :: rest => flattenElems rest (i + 1) pre (flattenStep (toString i) x pre acc)
termination_by (sizeOf xs, 2)
decreasing_by
  · apply Prod.Lex.left
    simp
    try omega
  · apply Prod.Lex.left
    simp
    try omega

/-- One iteration of the loop: build `newKey`; a non-object value is
skipped (silently — the source has no `else` branch and no logging); an
object with a `value` key is stored as a token; any other object or an
array is recursed into and its results assigned onto the accumulator. -/
def flattenStep (k : String) (x : JValue) (pre : String)
    (acc : List (String × JValue) × List String) :
    List (String × JValue) × List String :=
  let newKey := if pre = "" then k else pre ++ "." ++ k
  if isObjLike x then
    if hasValueKey x then (setKey acc.1 newKey x, acc.2)
    else
      let sub := flattenTokens x newKey
      (insertAll acc.1 sub.1, acc.2 ++ sub.2)
  else acc
termination_by (sizeOf x, 1)
decreasing_by
  apply Prod.Lex.right
  omega
end

/-! ### Claims about the flattener -/

theorem flattenStep_prim (k : String) (x : JValue) (pre : String)
    (acc : List (String × JValue) × List String)
    (hx : isObjLike x = false) : flattenStep k x pre acc = acc := by
  rw [flattenStep]
  simp [hx]

theorem flattenFields_skip (k : String) (x : JValue) (hx : isObjLike x = false)
    (fs1 : List (String × JValue)) :
    ∀ (fs2 : List (String × JValue)) (pre : String)
      (acc : List (String × JValue) × List String),
    flattenFields (fs1 ++ (k, x) :: fs2) pre acc = flattenFields (fs1 ++ fs2) pre acc := by
  induction fs1 with
  | nil =>
    intro fs2 pre acc
    rw [List.nil_append, List.nil_append, flattenFields.eq_2, flattenStep_prim k x pre acc hx]
  | cons y ys ih =>
    intro fs2 pre acc
    obtain ⟨ky, xy⟩ := y
    rw [List.cons_append, List.cons_append, flattenFields.eq_2, flattenFields.eq_2]
    exact ih fs2 pre (flattenStep ky xy pre acc)

/-- C9 counterexample: the claim says a leaf lacking a usable `value` is
skipped *and the problem is logged*.  Flattening an object with the bare
string leaf `bad` and the well-formed token `good` does skip `bad` and
keep `good`, but the console output of the call is empty — `flattenTokens`
contains no logging at all. -/
theorem c9_counterexample :
    flattenTokens (.obj [("bad", .str "oops"),
      ("good", .obj [("value", .str "#fff")])]) "" =
      ([("good", JValue.obj [("value", JValue.str "#fff")])], []) := by
  simp [flattenTokens, flattenFields, flattenStep, isObjLike, hasValueKey, setKey,
    insertAll, List.find?]

/-- C9 (amended): a leaf without a usable `value` (a bare primitive, a
`null`, a boolean) is skipped silently: flattening an object that
contains such a field gives exactly the same result — same flat map,
same (empty) console output — as flattening the object without it, so
all remaining well-formed tokens appear and no exception aborts the run;
but nothing is logged. -/
theorem c9_flatten_skips_malformed_silently
    (pre : String) (fs1 fs2 : List (String × JValue)) (k : String) (x : JValue)
    (hx : isObjLike x = false) :
    flattenTokens (.obj (fs1 ++ (k, x) :: fs2)) pre =
      flattenTokens (.obj (fs1 ++ fs2)) pre := by
  simp only [flattenTokens.eq_def]
  exact flattenFields_skip k x hx fs1 fs2 pre ([], [])

/-- Witness for C9: dropping the malformed leaf `bad` from a two-field
object leaves flattening unchanged. -/
theorem c9_witness :
    isObjLike (JValue.str "oops") = false ∧
    flattenTokens (.obj [("bad", .str "oops"),
        ("good", .obj [("value", .str "#fff")])]) "" =
      flattenTokens (.obj [("good", .obj [("value", .str "#fff")])]) "" :=
  ⟨by decide,
    c9_flatten_skips_malformed_silently "" []
      [("good", .obj [("value", .str "#fff")])] "bad" (.str "oops") (by decide)⟩
